import Mathlib

/-!
# Verification of the TagLab region-annotation engine

Shallow embedding of the annotation-state core of the TagLab repository
(`TagLab.py`, `source/QtImageViewerPlus.py`, `source/tools/Watershed.py`):
the undo/redo transaction log, the region-algebra wrappers (union,
subtract, divide), blob id allocation, and the watershed working-area and
marker-label computations.  Blobs are modelled by their id and the set of
foreground pixels of their mask; the class name of a blob is held in an
association list keyed by blob id, which captures the Python object
mutation (`blob.class_name = ...`) being visible through every reference
to the blob.  Components that live in files not part of the sources here
(`source/Annotation.py`, `source/Mask.py`) are modelled from the spec and
marked as such in their doc comments.
-/

namespace TagLabSpec

/-- A blob, reduced to the fields the verified claims touch: its integer
id and its mask, represented as the list of foreground pixel coordinates
(absolute image coordinates, `(x, y)`). -/
structure Blob where
  id : Nat
  mask : List (Int × Int)
deriving DecidableEq, Repr, Inhabited

/-- `Blob.copy` in the Python source deep-copies a blob (mask and scalar
state, id included as a plain value copy).  On immutable values a copy is
the value itself. -/
def Blob.copy (b : Blob) : Blob := b

/-- The pending / committed undo transaction
(`self.undo_operation = { "remove":[], "add":[], "class":[] }` in
`TagLab.__init__`): `remove` holds the blobs added by the operation (to
be removed on undo), `add` holds the blobs removed by the operation (to
be re-added on undo), `cls` holds `(blob id, previous class name)` pairs
for the class changes made by the operation. -/
structure UndoOp where
  remove : List Blob
  add : List Blob
  cls : List (Nat × String)
deriving DecidableEq, Repr

/-- The empty pending transaction `{ 'remove':[], 'add':[], 'class':[] }`. -/
def UndoOp.empty : UndoOp := ⟨[], [], []⟩

/-- `self.max_undo = 20` in `TagLab.__init__`. -/
def max_undo : Nat := 20

/-- The slice of the `TagLab` application state the undo/region claims
are about: the annotation collection (`self.annotations.seg_blobs`), the
set of drawn blob ids (standing for the `qpath_gitem` scene items), the
current selection, the undo log and the pending transaction, and the
class name of each blob (an association list blob id ↦ class name,
modelling the mutable `blob.class_name` attribute shared by every
reference to the blob). -/
structure TLState where
  seg_blobs : List Blob
  drawn : List Nat
  selected_blobs : List Blob
  undo_operations : List UndoOp
  undo_operation : UndoOp
  class_of : List (Nat × String)
deriving DecidableEq, Repr

/-- Look up the class name of blob `i` (`blob.class_name`); the sentinel
`"Empty"` is the default for an unclassified blob. -/
def lookupClass : List (Nat × String) → Nat → String
  | [], _ => "Empty"
  | p :: m, i => if p.1 = i then p.2 else lookupClass m i

/-- Overwrite the class name of blob `i` (`blob.class_name = c`). -/
def updateClass (m : List (Nat × String)) (i : Nat) (c : String) :
    List (Nat × String) :=
  (i, c) :: m.filter (fun p => p.1 ≠ i)

/-- Modelled from the spec: `Annotation.addBlob` from
`source/Annotation.py` (not among the sources): "appends to the store". -/
def annAddBlob (blobs : List Blob) (b : Blob) : List Blob :=
  blobs ++ [b]

/-- Modelled from the spec: `Annotation.removeBlob` from
`source/Annotation.py` (not among the sources): "removes by identity/id;
no-op-safe if already absent (idempotent)". -/
def annRemoveBlob (blobs : List Blob) (b : Blob) : List Blob :=
  blobs.filter (fun x => x.id ≠ b.id)

/-- `TagLab.drawBlob`: creates the scene item of the blob (modelled as
membership of its id in `drawn`). -/
def drawBlob (drawn : List Nat) (b : Blob) : List Nat :=
  if b.id ∈ drawn then drawn else drawn ++ [b.id]

/-- `TagLab.undrawBlob`: removes the scene item of the blob. -/
def undrawBlob (drawn : List Nat) (b : Blob) : List Nat :=
  drawn.filter (fun i => i ≠ b.id)

/-- `TagLab.removeFromSelectedList`:
`self.selected_blobs = [x for x in self.selected_blobs if not x == blob]`. -/
def removeFromSelectedList (sel : List Blob) (b : Blob) : List Blob :=
  sel.filter (fun x => x ≠ b)

/-- `TagLab.addToSelectedList`: appends the blob unless it is already
selected. -/
def addToSelectedList (sel : List Blob) (b : Blob) : List Blob :=
  if b ∈ sel then sel else sel ++ [b]

/-- `TagLab.addBlob(blob, selected)`: records the blob in the pending
transaction's `remove` list, appends it to the annotation collection,
draws it, and optionally selects it. -/
def addBlob (s : TLState) (b : Blob) (selected : Bool) : TLState :=
  { s with
    undo_operation :=
      { s.undo_operation with remove := s.undo_operation.remove ++ [b] }
    seg_blobs := annAddBlob s.seg_blobs b
    drawn := drawBlob s.drawn b
    selected_blobs :=
      if selected then addToSelectedList s.selected_blobs b
      else s.selected_blobs }

/-- `TagLab.removeBlob(blob)`: deselects and undraws the blob, records it
in the pending transaction's `add` list, and removes it from the
annotation collection. -/
def removeBlob (s : TLState) (b : Blob) : TLState :=
  { s with
    selected_blobs := removeFromSelectedList s.selected_blobs b
    drawn := undrawBlob s.drawn b
    undo_operation :=
      { s.undo_operation with add := s.undo_operation.add ++ [b] }
    seg_blobs := annRemoveBlob s.seg_blobs b }

/-- `TagLab.setBlobClass(blob, class_name)`: returns immediately when the
blob already carries the class; otherwise records
`(blob, blob.class_name)` in the pending transaction's `class` list and
overwrites the blob's class name. -/
def setBlobClass (s : TLState) (bid : Nat) (class_name : String) : TLState :=
  if lookupClass s.class_of bid = class_name then s
  else
    { s with
      undo_operation :=
        { s.undo_operation with
          cls := s.undo_operation.cls ++ [(bid, lookupClass s.class_of bid)] }
      class_of := updateClass s.class_of bid class_name }

/-- `TagLab.saveUndo()`: when the pending transaction has no adds, no
removes and no class changes it is discarded; otherwise it is appended to
`undo_operations`, the pending transaction is reset, and when the log
exceeds `max_undo` the oldest transaction is popped (`pop(0)`). -/
def saveUndo (s : TLState) : TLState :=
  if s.undo_operation.add.length = 0 ∧ s.undo_operation.remove.length = 0 ∧
      s.undo_operation.cls.length = 0 then s
  else
    let ops := s.undo_operations ++ [s.undo_operation]
    let ops := if ops.length > max_undo then ops.drop 1 else ops
    { s with undo_operations := ops, undo_operation := UndoOp.empty }

/-- The first loop of `TagLab.undo()`:
`for blob in operation['remove']:` deselect, undraw, and remove from the
annotation collection. -/
def undoRemoveLoop (s : TLState) (bs : List Blob) : TLState :=
  bs.foldl
    (fun st b =>
      { st with
        selected_blobs := removeFromSelectedList st.selected_blobs b
        drawn := undrawBlob st.drawn b
        seg_blobs := annRemoveBlob st.seg_blobs b })
    s

/-- The second loop of `TagLab.undo()`:
`for blob in operation['add']:` re-add to the annotation collection,
append to the selection, and draw. -/
def undoAddLoop (s : TLState) (bs : List Blob) : TLState :=
  bs.foldl
    (fun st b =>
      { st with
        seg_blobs := annAddBlob st.seg_blobs b
        selected_blobs := st.selected_blobs ++ [b]
        drawn := drawBlob st.drawn b })
    s

/-- The third loop of `TagLab.undo()`:
`for (blob, class_name) in operation['class']: blob.class_name = class_name`. -/
def undoClassLoop (s : TLState) (cs : List (Nat × String)) : TLState :=
  cs.foldl (fun st p => { st with class_of := updateClass st.class_of p.1 p.2 }) s

/-- `TagLab.undo()`: a no-op when the log is empty; otherwise pops the
last committed transaction (`pop(-1)`) and runs the three inverse loops. -/
def undo (s : TLState) : TLState :=
  match s.undo_operations.getLast? with
  | none => s
  | some op =>
      let s := { s with undo_operations := s.undo_operations.dropLast }
      let s := undoRemoveLoop s op.remove
      let s := undoAddLoop s op.add
      undoClassLoop s op.cls

/-! ## Region algebra: masks, connectivity, subtract / divide / union -/

/-- Two pixels touch under 4-adjacency. -/
def adj4 (p q : Int × Int) : Bool :=
  (p.1 = q.1 ∧ (p.2 - q.2 = 1 ∨ q.2 - p.2 = 1)) ∨
  (p.2 = q.2 ∧ (p.1 - q.1 = 1 ∨ q.1 - p.1 = 1))

/-- The masks of two blobs share a foreground pixel. -/
def maskOverlap (m1 m2 : List (Int × Int)) : Bool :=
  m1.any (fun p => m2.contains p)

/-- `m1 AND NOT m2`: the pixels of `m1` not covered by `m2`. -/
def maskDiff (m1 m2 : List (Int × Int)) : List (Int × Int) :=
  m1.filter (fun p => ¬ m2.contains p)

/-- Grow a 4-connected component: repeatedly absorb the pixels of `rest`
adjacent to the component, with enough fuel to absorb one pixel per
round. -/
def grow : Nat → List (Int × Int) → List (Int × Int) → List (Int × Int)
  | 0, comp, _ => comp
  | n + 1, comp, rest =>
      let added := rest.filter (fun p => comp.any (fun q => adj4 p q))
      if added.isEmpty then comp
      else
        grow n (comp ++ added)
          (rest.filter (fun p => ¬ comp.any (fun q => adj4 p q)))

/-- The foreground region is 4-connected as a whole: every pixel is
reached by growing from the first one (the empty mask counts as
connected). -/
def connected4 (m : List (Int × Int)) : Bool :=
  match m with
  | [] => true
  | p :: rest => rest.all (fun q => (grow m.length [p] rest).contains q)

/-- Decompose a mask into its 4-connected components. -/
def components4 : Nat → List (Int × Int) → List (List (Int × Int))
  | 0, _ => []
  | _, [] => []
  | n + 1, p :: rest =>
      let comp := grow (rest.length + 1) [p] rest
      comp :: components4 n (rest.filter (fun q => ¬ comp.contains q))

/-- The largest 4-connected component of a mask (empty for the empty
mask). -/
def largestComp (m : List (Int × Int)) : List (Int × Int) :=
  (components4 m.length m).foldl
    (fun best c => if c.length > best.length then c else best) []

/-- Modelled from the spec: `Annotation.subtract(blobA, blobB)` from
`source/Annotation.py` (not among the sources): "computes
`blobA.mask AND NOT blobB.mask` …, in place on blobA; returns `false`
(signals `NoIntersection`) and leaves blobA unchanged if the masks do not
overlap; on success recomputes blobA … and may split blobA into multiple
disjoint pieces — policy: keep only the largest connected component".
Returned as `(intersection flag, resulting first blob)`; the second blob
is never modified. -/
def annSubtract (blobA blobB : Blob) : Bool × Blob :=
  if maskOverlap blobA.mask blobB.mask then
    (true, { blobA with mask := largestComp (maskDiff blobA.mask blobB.mask) })
  else (false, blobA)

/-- The combined foreground of a list of blobs (pixelwise OR of the masks
rasterized into the joint frame). -/
def combinedMask (blobs : List Blob) : List (Int × Int) :=
  blobs.foldl (fun acc b => acc ++ b.mask) []

/-- Modelled from the spec: `Annotation.union(blobs)` from
`source/Annotation.py` (not among the sources): "performs pixelwise OR,
re-derives polygon/measures.  Returns `None` (signals `Disjoint`) if the
resulting region is not 4-connected as a whole".  The spec leaves the new
blob's id to the caller-side allocation; the model carries the first
blob's id, which no theorem below depends on. -/
def annUnion (blobs : List Blob) : Option Blob :=
  let m := combinedMask blobs
  if connected4 m then
    some { id := (blobs.headI).id, mask := m }
  else none

/-- `TagLab.subtract()`: on exactly two selected blobs, copies the first,
runs `annotations.subtract(blobA, selectedB)` on the copy, and only when
an intersection was found removes both selected blobs, adds the modified
copy, and commits the undo transaction. -/
def subtractOp (s : TLState) : TLState :=
  match s.selected_blobs with
  | [selectedA, selectedB] =>
      let blobA := Blob.copy selectedA
      let r := annSubtract blobA selectedB
      if r.1 then
        saveUndo (addBlob (removeBlob (removeBlob s selectedA) selectedB) r.2 true)
      else s
  | _ => s

/-- `TagLab.divide()`: on exactly two selected blobs, copies both and
runs `annotations.subtract(blobB, blobA)` — the subtract core with its
arguments swapped; only when an intersection was found removes both
selected blobs, re-adds the untouched copy of A and the modified copy of
B, and commits the undo transaction. -/
def divideOp (s : TLState) : TLState :=
  match s.selected_blobs with
  | [selectedA, selectedB] =>
      let blobA := Blob.copy selectedA
      let blobB := Blob.copy selectedB
      let r := annSubtract blobB blobA
      if r.1 then
        saveUndo (addBlob (addBlob (removeBlob (removeBlob s selectedA) selectedB)
          blobA false) r.2 false)
      else s
  | _ => s

/-- The loop `for blob in self.selected_blobs: self.removeBlob(blob)` of
`TagLab.union()`: Python iterates by index over the live list while
`removeBlob` shrinks it through `removeFromSelectedList`, so the loop is
modelled index by index on the current state. -/
def removeSelectedLoop : Nat → Nat → TLState → TLState
  | 0, _, s => s
  | fuel + 1, i, s =>
      match s.selected_blobs.get? i with
      | none => s
      | some b => removeSelectedLoop fuel (i + 1) (removeBlob s b)

/-- `TagLab.union()`: on two or more selected blobs, asks
`annotations.union` for the merged blob; when it returns `None` nothing
happens, otherwise the selected blobs are removed, the union blob is
added selected, and the undo transaction is committed. -/
def unionOp (s : TLState) : TLState :=
  if s.selected_blobs.length > 1 then
    match annUnion s.selected_blobs with
    | none => s
    | some union_blob =>
        let s' := removeSelectedLoop s.selected_blobs.length 0 s
        saveUndo (addBlob s' union_blob true)
  else s

/-! ## Blob id allocation -/

/-- Modelled from the spec: `Annotation.getFreeId()` from
`source/Annotation.py` (not among the sources): "returns
`max(existing ids) + 1`, or 1 if empty". -/
def getFreeId (blobs : List Blob) : Nat :=
  (blobs.foldl (fun m b => max m b.id) 0) + 1

/-- The id assigned by the freehand-curve commit path in
`TagLab.keyPressEvent`:
`id = len(self.annotations.seg_blobs); blob.setId(id + 1)`. -/
def freehandNewId (blobs : List Blob) : Nat :=
  blobs.length + 1

/-! ## Watershed: working area and marker labels -/

/-- A bounding box in the `[top, left, width, height]` layout the
watershed code indexes (`working_area[0]` = top, `[1]` = left,
`[2]` = width, `[3]` = height). -/
structure BBox where
  top : Int
  left : Int
  width : Int
  height : Int
deriving DecidableEq, Repr, Inhabited

/-- Modelled from the spec: `Mask.pointsBox(points, pad)` from
`source/Mask.py` (not among the sources): the tight bounding box of the
points (each `(x, y)`), expanded by `pad` on every side — "the joint
bounding box covering all scribbles with half-brush-width padding". -/
def pointsBox (curve : List (Int × Int)) (pad : Int) : BBox :=
  match curve with
  | [] => ⟨0, 0, 0, 0⟩
  | p :: rest =>
      let minX := rest.foldl (fun m q => min m q.1) p.1
      let maxX := rest.foldl (fun m q => max m q.1) p.1
      let minY := rest.foldl (fun m q => min m q.2) p.2
      let maxY := rest.foldl (fun m q => max m q.2) p.2
      ⟨minY - pad, minX - pad, maxX - minX + 2 * pad, maxY - minY + 2 * pad⟩

/-- Modelled from the spec: `Mask.jointBox(bboxes)` from
`source/Mask.py` (not among the sources): the smallest box containing all
the given boxes. -/
def jointBox (bboxes : List BBox) : BBox :=
  match bboxes with
  | [] => ⟨0, 0, 0, 0⟩
  | b :: rest =>
      rest.foldl
        (fun acc c =>
          let top := min acc.top c.top
          let left := min acc.left c.left
          let bottom := max (acc.top + acc.height) (c.top + c.height)
          let right := max (acc.left + acc.width) (c.left + c.width)
          ⟨top, left, right - left, bottom - top⟩)
        b

/-- The four clamping `if`s of `Watershed.apply`, in source order and
each reading the fields already clamped by the previous ones: top and
left are raised to 0, then the height and width are cut so the box ends
at the image's bottom and right edges. -/
def clampWorkingArea (wa : BBox) (imgW imgH : Int) : BBox :=
  let wa := if wa.top < 0 then { wa with top := 0 } else wa
  let wa := if wa.left < 0 then { wa with left := 0 } else wa
  let wa := if wa.top + wa.height > imgH then { wa with height := imgH - wa.top } else wa
  let wa := if wa.left + wa.width > imgW then { wa with width := imgW - wa.left } else wa
  wa

/-- Lines 42–58 of `Watershed.apply`: one `Mask.pointsBox` per scribble
stroke padded by `int(size/2)`, joined by `Mask.jointBox`, then clamped
to the image bounds.  `points` are the stroke curves and `sizes` the
per-stroke brush widths (`self.scribbles.points` / `self.scribbles.size`). -/
def workingArea (points : List (List (Int × Int))) (sizes : List Nat)
    (imgW imgH : Int) : BBox :=
  let bboxes := (points.zip sizes).map
    (fun pc => pointsBox pc.1 (Int.ofNat (pc.2 / 2)))
  clampWorkingArea (jointBox bboxes) imgW imgH

/-- An RGB scribble color `(r, g, b)`. -/
abbrev RGB := Nat × Nat × Nat

/-- `color_code = b + 256 * g + 65536 * r` in `Watershed.apply`. -/
def colorCode (c : RGB) : Nat :=
  c.2.2 + 256 * c.2.1 + 65536 * c.1

/-- One iteration of the first marker loop of `Watershed.apply`: the
accumulator is the dictionary `color_codes` (as an association list
code ↦ label) together with `counter`; a color code not yet in the
dictionary (`color_codes.get(color_key) is None`) is assigned the
current counter and the counter is incremented. -/
def colorStep (acc : List (Nat × Nat) × Nat) (c : RGB) : List (Nat × Nat) × Nat :=
  let code := colorCode c
  if (acc.1.find? (fun p => p.1 = code)).isSome then acc
  else (acc.1 ++ [(code, acc.2)], acc.2 + 1)

/-- The first marker loop of `Watershed.apply`: scan the strokes in
order, starting from the empty dictionary and `counter = 1`. -/
def buildColorCodes (colors : List RGB) : List (Nat × Nat) :=
  (colors.foldl colorStep ([], 1)).1

/-- The marker label `color_codes[color_key]` a stroke color receives
(0 when the color never occurs, a case the code never queries). -/
def labelOf (colors : List RGB) (c : RGB) : Nat :=
  match (buildColorCodes colors).find? (fun p => p.1 = colorCode c) with
  | some p => p.2
  | none => 0

/-- First-seen-order deduplication of a list of color codes, given the
codes already seen. -/
def seenDedup (seen : List Nat) : List Nat → List Nat
  | [] => []
  | c :: rest =>
      if c ∈ seen then seenDedup seen rest
      else c :: seenDedup (c :: seen) rest

/-! ## Helper lemmas -/

theorem saveUndo_seg_blobs (s : TLState) : (saveUndo s).seg_blobs = s.seg_blobs := by
  unfold saveUndo
  split <;> rfl

theorem saveUndo_undo_operations (s : TLState) :
    (saveUndo s).undo_operations =
      if s.undo_operation.add.length = 0 ∧ s.undo_operation.remove.length = 0 ∧
          s.undo_operation.cls.length = 0 then s.undo_operations
      else if (s.undo_operations ++ [s.undo_operation]).length > max_undo
        then (s.undo_operations ++ [s.undo_operation]).drop 1
        else s.undo_operations ++ [s.undo_operation] := by
  by_cases h1 : s.undo_operation.add.length = 0 ∧ s.undo_operation.remove.length = 0 ∧
      s.undo_operation.cls.length = 0
  · simp [saveUndo, h1]
  · simp only [saveUndo, h1, if_false]

theorem saveUndo_drawn (s : TLState) : (saveUndo s).drawn = s.drawn := by
  unfold saveUndo
  split <;> rfl

theorem undoRemoveLoop_fields (bs : List Blob) (s : TLState) :
    (undoRemoveLoop s bs).undo_operations = s.undo_operations ∧
    (undoRemoveLoop s bs).undo_operation = s.undo_operation ∧
    (undoRemoveLoop s bs).class_of = s.class_of ∧
    (undoRemoveLoop s bs).seg_blobs = List.foldl annRemoveBlob s.seg_blobs bs ∧
    (undoRemoveLoop s bs).drawn = List.foldl undrawBlob s.drawn bs := by
  induction bs generalizing s with
  | nil => exact ⟨rfl, rfl, rfl, rfl, rfl⟩
  | cons b bs ih =>
      simpa [undoRemoveLoop, List.foldl_cons] using
        ih { s with
              selected_blobs := removeFromSelectedList s.selected_blobs b
              drawn := undrawBlob s.drawn b
              seg_blobs := annRemoveBlob s.seg_blobs b }

theorem undoAddLoop_fields (bs : List Blob) (s : TLState) :
    (undoAddLoop s bs).undo_operations = s.undo_operations ∧
    (undoAddLoop s bs).undo_operation = s.undo_operation ∧
    (undoAddLoop s bs).class_of = s.class_of ∧
    (undoAddLoop s bs).seg_blobs = s.seg_blobs ++ bs ∧
    (undoAddLoop s bs).drawn = List.foldl drawBlob s.drawn bs := by
  induction bs generalizing s with
  | nil => exact ⟨rfl, rfl, rfl, by simp [undoAddLoop], rfl⟩
  | cons b bs ih =>
      have h := ih { s with
        seg_blobs := annAddBlob s.seg_blobs b
        selected_blobs := s.selected_blobs ++ [b]
        drawn := drawBlob s.drawn b }
      simpa [undoAddLoop, List.foldl_cons, annAddBlob] using h

theorem undoClassLoop_fields (cs : List (Nat × String)) (s : TLState) :
    (undoClassLoop s cs).undo_operations = s.undo_operations ∧
    (undoClassLoop s cs).undo_operation = s.undo_operation ∧
    (undoClassLoop s cs).seg_blobs = s.seg_blobs ∧
    (undoClassLoop s cs).drawn = s.drawn ∧
    (undoClassLoop s cs).class_of
      = List.foldl (fun m p => updateClass m p.1 p.2) s.class_of cs := by
  induction cs generalizing s with
  | nil => exact ⟨rfl, rfl, rfl, rfl, rfl⟩
  | cons c cs ih =>
      simpa [undoClassLoop, List.foldl_cons] using
        ih { s with class_of := updateClass s.class_of c.1 c.2 }

theorem undo_eq_of_getLast (t : TLState) (o : UndoOp)
    (hl : t.undo_operations.getLast? = some o) :
    undo t = undoClassLoop (undoAddLoop (undoRemoveLoop
      { t with undo_operations := t.undo_operations.dropLast } o.remove) o.add) o.cls := by
  unfold undo
  rw [hl]

theorem undo_undo_operations (t : TLState) :
    (undo t).undo_operations = t.undo_operations.dropLast := by
  cases hl : t.undo_operations.getLast? with
  | none =>
      have hnil : t.undo_operations = [] := List.getLast?_eq_none_iff.mp hl
      unfold undo
      rw [hl, hnil]
      rfl
  | some o =>
      rw [undo_eq_of_getLast t o hl]
      rw [(undoClassLoop_fields o.cls _).1, (undoAddLoop_fields o.add _).1,
        (undoRemoveLoop_fields o.remove _).1]

theorem mem_foldl_annRemoveBlob (bs : List Blob) (l : List Blob) (x : Blob)
    (hx : x ∈ List.foldl annRemoveBlob l bs) : x ∈ l := by
  induction bs generalizing l with
  | nil => simpa using hx
  | cons b bs ih =>
      have := ih (annRemoveBlob l b) (by simpa [List.foldl_cons] using hx)
      exact List.mem_of_mem_filter this

theorem foldl_annRemoveBlob_id_ne (bs : List Blob) (l : List Blob) (b x : Blob)
    (hb : b ∈ bs) (hx : x ∈ List.foldl annRemoveBlob l bs) : x.id ≠ b.id := by
  induction bs generalizing l with
  | nil => simp at hb
  | cons b' bs ih =>
      rw [List.foldl_cons] at hx
      rcases List.mem_cons.mp hb with h | h
      · subst h
        have hmem : x ∈ annRemoveBlob l b := mem_foldl_annRemoveBlob bs _ x hx
        have := List.of_mem_filter hmem
        simpa using this
      · exact ih _ h hx

theorem mem_drawBlob_self (d : List Nat) (b : Blob) : b.id ∈ drawBlob d b := by
  unfold drawBlob
  split <;> simp_all

theorem mem_drawBlob_mono (d : List Nat) (b : Blob) (i : Nat) (hi : i ∈ d) :
    i ∈ drawBlob d b := by
  unfold drawBlob
  split <;> simp_all

theorem mem_foldl_drawBlob_mono (bs : List Blob) (d : List Nat) (i : Nat)
    (hi : i ∈ d) : i ∈ List.foldl drawBlob d bs := by
  induction bs generalizing d with
  | nil => simpa using hi
  | cons b bs ih =>
      rw [List.foldl_cons]
      exact ih _ (mem_drawBlob_mono _ _ _ hi)

theorem mem_foldl_drawBlob (bs : List Blob) (d : List Nat) (b : Blob) (hb : b ∈ bs) :
    b.id ∈ List.foldl drawBlob d bs := by
  induction bs generalizing d with
  | nil => simp at hb
  | cons b' bs ih =>
      rw [List.foldl_cons]
      rcases List.mem_cons.mp hb with h | h
      · subst h
        exact mem_foldl_drawBlob_mono bs _ b.id (mem_drawBlob_self d b)
      · exact ih _ h

theorem lookupClass_updateClass_self (m : List (Nat × String)) (i : Nat) (c : String) :
    lookupClass (updateClass m i c) i = c := by
  simp [lookupClass, updateClass]

theorem lookupClass_filter_key_ne (m : List (Nat × String)) (i j : Nat) (hij : i ≠ j) :
    lookupClass (m.filter (fun p => p.1 ≠ j)) i = lookupClass m i := by
  have hji : ¬ (j = i) := fun h => hij h.symm
  induction m with
  | nil => rfl
  | cons q m ih =>
      rcases q with ⟨k, v⟩
      by_cases hkj : k = j
      · subst hkj
        simpa [List.filter_cons, lookupClass, hji] using ih
      · by_cases hki : k = i
        · subst hki
          simp [List.filter_cons, lookupClass, hkj]
        · simpa [List.filter_cons, lookupClass, hkj, hki] using ih

theorem lookupClass_updateClass_ne (m : List (Nat × String)) (i j : Nat) (c : String)
    (hij : i ≠ j) : lookupClass (updateClass m j c) i = lookupClass m i := by
  have hji : ¬ (j = i) := fun h => hij h.symm
  simp only [updateClass, lookupClass, hji, if_false]
  exact lookupClass_filter_key_ne m i j hij

theorem lookupClass_foldl_updateClass_not_mem (cs : List (Nat × String))
    (m : List (Nat × String)) (i : Nat) (hi : i ∉ cs.map Prod.fst) :
    lookupClass (List.foldl (fun m p => updateClass m p.1 p.2) m cs) i
      = lookupClass m i := by
  induction cs generalizing m with
  | nil => rfl
  | cons c cs ih =>
      rw [List.foldl_cons]
      have hic : i ≠ c.1 := by
        intro h
        exact hi (by simp [h])
      rw [ih _ (fun h => hi (by simp [h]))]
      exact lookupClass_updateClass_ne m i c.1 c.2 hic

theorem lookupClass_foldl_updateClass_nodup (cs : List (Nat × String))
    (m : List (Nat × String)) (hnd : (cs.map Prod.fst).Nodup) (p : Nat × String)
    (hp : p ∈ cs) :
    lookupClass (List.foldl (fun m q => updateClass m q.1 q.2) m cs) p.1 = p.2 := by
  induction cs generalizing m with
  | nil => simp at hp
  | cons c cs ih =>
      rw [List.foldl_cons]
      rcases List.mem_cons.mp hp with h | h
      · subst h
        have hni : p.1 ∉ cs.map Prod.fst := by
          have := hnd
          simp only [List.map_cons, List.nodup_cons] at this
          exact this.1
        rw [lookupClass_foldl_updateClass_not_mem cs _ p.1 hni]
        exact lookupClass_updateClass_self m p.1 p.2
      · have hnd' : (cs.map Prod.fst).Nodup := by
          simp only [List.map_cons, List.nodup_cons] at hnd
          exact hnd.2
        exact ih _ hnd' h

/-! ## Claim theorems -/

/-- C2: calling `saveUndo()` while the pending transaction is empty (its
add, remove and class lists are all empty) leaves the undo log unchanged:
the empty transaction is discarded and never appended, so the number of
transactions reachable by `undo()` does not grow. -/
theorem C2_saveUndo_empty_discarded (s : TLState)
    (h : s.undo_operation.add = [] ∧ s.undo_operation.remove = [] ∧
      s.undo_operation.cls = []) :
    saveUndo s = s ∧
    (saveUndo s).undo_operations.length = s.undo_operations.length := by
  have he : saveUndo s = s := by simp [saveUndo, h.1, h.2.1, h.2.2]
  exact ⟨he, by rw [he]⟩

theorem C2_saveUndo_empty_discarded_witness :
    saveUndo ⟨[⟨1, [(0, 0)]⟩], [1], [], [⟨[⟨1, [(0, 0)]⟩], [], []⟩], UndoOp.empty, []⟩
      = ⟨[⟨1, [(0, 0)]⟩], [1], [], [⟨[⟨1, [(0, 0)]⟩], [], []⟩], UndoOp.empty, []⟩ :=
  (C2_saveUndo_empty_discarded _ ⟨rfl, rfl, rfl⟩).1

/-- C10: calling `setBlobClass` with a class name equal to the blob's
current class name is a no-op: the state (in particular the blob's class
and the pending transaction's class list) is unchanged, so a later
`saveUndo()`/`undo()` pair does not see or revert it. -/
theorem C10_setBlobClass_same_noop (s : TLState) (bid : Nat) (cn : String)
    (h : lookupClass s.class_of bid = cn) :
    setBlobClass s bid cn = s
    ∧ (setBlobClass s bid cn).undo_operation.cls = s.undo_operation.cls
    ∧ undo (saveUndo (setBlobClass s bid cn)) = undo (saveUndo s) := by
  have he : setBlobClass s bid cn = s := by simp [setBlobClass, h]
  exact ⟨he, by rw [he], by rw [he]⟩

theorem C10_setBlobClass_same_noop_witness :
    setBlobClass ⟨[⟨1, [(0, 0)]⟩], [1], [], [], UndoOp.empty, [(1, "Coral")]⟩ 1 "Coral"
      = ⟨[⟨1, [(0, 0)]⟩], [1], [], [], UndoOp.empty, [(1, "Coral")]⟩ :=
  (C10_setBlobClass_same_noop _ 1 "Coral" (by decide)).1

/-- C4: the claim that every id assigned on insertion (freehand path or
watershed path) is unique in the collection, monotonic and never reused
fails on the code: the freehand commit path of `TagLab.keyPressEvent`
assigns `len(seg_blobs) + 1`, which collides with an existing id as soon
as the collection has a hole (here a store holding only blob 2 after
blob 1 was removed), while the spec's `getFreeId` would return the fresh
id 3. -/
theorem C4_freehand_id_collision :
    freehandNewId [⟨2, [(0, 0)]⟩] = 2
    ∧ (2 : Nat) ∈ ([⟨2, [(0, 0)]⟩] : List Blob).map Blob.id
    ∧ getFreeId [⟨2, [(0, 0)]⟩] = 3 :=
  ⟨rfl, by simp, rfl⟩

/-- C3: the undo log never holds more than `max_undo` (20) committed
transactions: `saveUndo` preserves the bound, a commit onto a full log
evicts the oldest transaction (FIFO), and `undo` never re-introduces a
transaction that is not in the log, so an evicted transaction is
unreachable by any sequence of `undo()` calls. -/
theorem C3_undo_log_bounded (s : TLState)
    (hlen : s.undo_operations.length ≤ max_undo) :
    (saveUndo s).undo_operations.length ≤ max_undo
    ∧ (s.undo_operations.length = max_undo →
        s.undo_operation ≠ UndoOp.empty →
        (saveUndo s).undo_operations
          = s.undo_operations.drop 1 ++ [s.undo_operation])
    ∧ (∀ (t : TLState) (op : UndoOp),
        op ∉ t.undo_operations → op ∉ (undo t).undo_operations) := by
  have hne_iff : ∀ o : UndoOp,
      (o.add.length = 0 ∧ o.remove.length = 0 ∧ o.cls.length = 0) ↔ o = UndoOp.empty := by
    intro o
    cases o
    simp [UndoOp.empty, List.length_eq_zero, and_comm]
    tauto
  refine ⟨?_, ?_, ?_⟩
  · rw [saveUndo_undo_operations]
    split_ifs with h1 h2
    · exact hlen
    · simp only [List.length_drop, List.length_append, List.length_singleton]
      omega
    · simp only [List.length_append, List.length_singleton] at h2 ⊢
      omega
  · intro hfull hne
    have hemp : ¬ (s.undo_operation.add.length = 0 ∧
        s.undo_operation.remove.length = 0 ∧ s.undo_operation.cls.length = 0) := by
      intro h
      exact hne ((hne_iff s.undo_operation).mp h)
    have hbig : (s.undo_operations ++ [s.undo_operation]).length > max_undo := by
      simp only [List.length_append, List.length_singleton]
      omega
    rw [saveUndo_undo_operations]
    simp only [hemp, if_false, hbig, if_true]
    have hmu : max_undo = 20 := rfl
    exact List.drop_append_of_le_length (by omega)
  · intro t op hop hmem
    apply hop
    rw [undo_undo_operations t] at hmem
    exact (List.dropLast_sublist t.undo_operations).subset hmem

/-- A committed class-change transaction used to fill a log to capacity. -/
def fillerOp : UndoOp := ⟨[], [], [(1, "Coral")]⟩

/-- A non-empty pending transaction about to be committed onto a full log. -/
def pendingOp : UndoOp := ⟨[⟨1, [(0, 0)]⟩], [], []⟩

/-- A state whose undo log is at capacity (20 committed transactions). -/
def fullLogState : TLState :=
  ⟨[], [], [], List.replicate 20 fillerOp, pendingOp, []⟩

/-- A transaction that is not in the full log. -/
def evictedOp : UndoOp := ⟨[⟨9, [(1, 1)]⟩], [], []⟩

theorem C3_undo_log_bounded_witness :
    fullLogState.undo_operations.length ≤ max_undo
    ∧ (saveUndo fullLogState).undo_operations.length ≤ max_undo
    ∧ (saveUndo fullLogState).undo_operations
        = fullLogState.undo_operations.drop 1 ++ [fullLogState.undo_operation]
    ∧ evictedOp ∉ (undo fullLogState).undo_operations := by
  have h := C3_undo_log_bounded fullLogState (by decide)
  exact ⟨by decide, h.1, h.2.1 (by decide) (by decide),
    h.2.2 fullLogState evictedOp (by decide)⟩

/-- C1: `undo()` pops the most recently committed transaction and
applies its inverse: every blob the operation removed (recorded in the
transaction's `add` list) is re-added to the annotation collection and
redrawn, every blob the operation added (recorded in its `remove` list)
is removed from the collection — the `remove` blobs are filtered out
first and the `add` blobs appended afterwards, so a transaction that
replaced a blob by a same-id copy (subtract, divide, edit-border,
refine-border) undoes to exactly the original: the only blob left
carrying an added blob's id is the re-added original — and the class
changes are replayed (`blob.class_name = previous`), which reverts every
change to its recorded previous class name whenever no blob's class is
recorded twice in the transaction; if the log holds no committed
transaction, `undo()` changes nothing. -/
theorem C1_undo_applies_inverse (s : TLState) :
    (s.undo_operations = [] → undo s = s)
    ∧ (∀ op : UndoOp, s.undo_operations.getLast? = some op →
        (undo s).undo_operations = s.undo_operations.dropLast
        ∧ (undo s).seg_blobs
            = List.foldl annRemoveBlob s.seg_blobs op.remove ++ op.add
        ∧ (∀ b ∈ op.add, b ∈ (undo s).seg_blobs ∧ b.id ∈ (undo s).drawn)
        ∧ (∀ b ∈ op.remove, ∀ x ∈ (undo s).seg_blobs, x.id = b.id → x ∈ op.add)
        ∧ (undo s).class_of
            = List.foldl (fun m p => updateClass m p.1 p.2) s.class_of op.cls
        ∧ ((op.cls.map Prod.fst).Nodup →
            ∀ p ∈ op.cls, lookupClass (undo s).class_of p.1 = p.2)) := by
  constructor
  · intro hnil
    unfold undo
    rw [hnil]
    rfl
  · intro op hl
    have hr := undoRemoveLoop_fields op.remove
      { s with undo_operations := s.undo_operations.dropLast }
    have ha := undoAddLoop_fields op.add
      (undoRemoveLoop { s with undo_operations := s.undo_operations.dropLast } op.remove)
    have hc := undoClassLoop_fields op.cls (undoAddLoop (undoRemoveLoop
      { s with undo_operations := s.undo_operations.dropLast } op.remove) op.add)
    have hseg : (undo s).seg_blobs
        = List.foldl annRemoveBlob s.seg_blobs op.remove ++ op.add := by
      rw [undo_eq_of_getLast s op hl, hc.2.2.1, ha.2.2.2.1, hr.2.2.2.1]
    have hdrawn : (undo s).drawn
        = List.foldl drawBlob (List.foldl undrawBlob s.drawn op.remove) op.add := by
      rw [undo_eq_of_getLast s op hl, hc.2.2.2.1, ha.2.2.2.2, hr.2.2.2.2]
    have hcls : (undo s).class_of
        = List.foldl (fun m p => updateClass m p.1 p.2) s.class_of op.cls := by
      rw [undo_eq_of_getLast s op hl, hc.2.2.2.2, ha.2.2.1, hr.2.2.1]
    refine ⟨undo_undo_operations s, hseg, ?_, ?_, hcls, ?_⟩
    · intro b hb
      constructor
      · rw [hseg]
        exact List.mem_append_right _ hb
      · rw [hdrawn]
        exact mem_foldl_drawBlob op.add _ b hb
    · intro b hb x hx hid
      rw [hseg] at hx
      rcases List.mem_append.mp hx with h | h
      · exact absurd hid (foldl_annRemoveBlob_id_ne op.remove s.seg_blobs b x hb h)
      · exact h
    · intro hnd p hp
      rw [hcls]
      exact lookupClass_foldl_updateClass_nodup op.cls s.class_of hnd p hp

/-- The committed transaction of the undo demonstration below, shaped
like the one `subtract` commits: the operation removed the original blob
1 (recorded in `add`) and added a modified copy carrying the same id 1
(recorded in `remove`); it also changed blob 3's class from "Rock" (to
"Coral"). -/
def undoDemoOp : UndoOp :=
  ⟨[⟨1, [(5, 5)]⟩], [⟨1, [(5, 5), (6, 5)]⟩], [(3, "Rock")]⟩

/-- A state after that operation was committed: the modified copy of
blob 1 is in the collection, the original is only in the transaction. -/
def undoDemoState : TLState :=
  ⟨[⟨1, [(5, 5)]⟩, ⟨3, [(9, 9)]⟩], [1, 3], [], [undoDemoOp], UndoOp.empty,
    [(3, "Coral")]⟩

theorem C1_undo_applies_inverse_witness :
    (undo undoDemoState).undo_operations = []
    ∧ (⟨1, [(5, 5), (6, 5)]⟩ : Blob) ∈ (undo undoDemoState).seg_blobs
    ∧ (1 : Nat) ∈ (undo undoDemoState).drawn
    ∧ (⟨1, [(5, 5)]⟩ : Blob) ∉ (undo undoDemoState).seg_blobs
    ∧ lookupClass (undo undoDemoState).class_of 3 = "Rock" := by
  have h := (C1_undo_applies_inverse undoDemoState).2 undoDemoOp (by decide)
  refine ⟨by simpa using h.1, (h.2.2.1 _ (by decide)).1, ?_, ?_, ?_⟩
  · simpa using (h.2.2.1 (⟨1, [(5, 5), (6, 5)]⟩ : Blob) (by decide)).2
  · intro hmem
    exact absurd (h.2.2.2.1 ⟨1, [(5, 5)]⟩ (by decide) ⟨1, [(5, 5)]⟩ hmem rfl)
      (by decide)
  · exact h.2.2.2.2.2 (by decide) (3, "Rock") (by decide)

/-- C5: when the masks of the two selected blobs do not overlap (in
particular when their bounding boxes do not intersect), subtract returns
`false` and is a complete no-op: A's mask is unchanged (the core returns
A itself), neither blob is removed, no blob is added, and no undo
transaction is committed (the whole state is unchanged). -/
theorem C5_subtract_no_overlap_noop (s : TLState) (a b : Blob)
    (hsel : s.selected_blobs = [a, b])
    (hov : maskOverlap a.mask b.mask = false) :
    annSubtract a b = (false, a) ∧ subtractOp s = s := by
  have h1 : annSubtract a b = (false, a) := by simp [annSubtract, hov]
  refine ⟨h1, ?_⟩
  unfold subtractOp
  rw [hsel]
  simp [Blob.copy, h1]

theorem C5_subtract_no_overlap_noop_witness :
    annSubtract ⟨1, [(0, 0)]⟩ ⟨2, [(5, 5)]⟩ = (false, ⟨1, [(0, 0)]⟩)
    ∧ subtractOp ⟨[⟨1, [(0, 0)]⟩, ⟨2, [(5, 5)]⟩], [1, 2],
        [⟨1, [(0, 0)]⟩, ⟨2, [(5, 5)]⟩], [], UndoOp.empty, []⟩
      = ⟨[⟨1, [(0, 0)]⟩, ⟨2, [(5, 5)]⟩], [1, 2],
        [⟨1, [(0, 0)]⟩, ⟨2, [(5, 5)]⟩], [], UndoOp.empty, []⟩ :=
  C5_subtract_no_overlap_noop _ ⟨1, [(0, 0)]⟩ ⟨2, [(5, 5)]⟩ rfl (by decide)

/-- C7: when the selected blobs (two or more) are spatially disjoint —
their combined region is not 4-connected — union returns `None` and the
operation is a no-op: no selected blob is removed, no union blob is
added, and no undo transaction is committed (the whole state is
unchanged). -/
theorem C7_union_disjoint_noop (s : TLState)
    (hlen : 1 < s.selected_blobs.length)
    (hconn : connected4 (combinedMask s.selected_blobs) = false) :
    annUnion s.selected_blobs = none ∧ unionOp s = s := by
  have h1 : annUnion s.selected_blobs = none := by simp [annUnion, hconn]
  refine ⟨h1, ?_⟩
  unfold unionOp
  simp [hlen, h1]

theorem C7_union_disjoint_noop_witness :
    annUnion [(⟨1, [(0, 0)]⟩ : Blob), ⟨2, [(5, 5)]⟩] = none
    ∧ unionOp ⟨[⟨1, [(0, 0)]⟩, ⟨2, [(5, 5)]⟩], [1, 2],
        [⟨1, [(0, 0)]⟩, ⟨2, [(5, 5)]⟩], [], UndoOp.empty, []⟩
      = ⟨[⟨1, [(0, 0)]⟩, ⟨2, [(5, 5)]⟩], [1, 2],
        [⟨1, [(0, 0)]⟩, ⟨2, [(5, 5)]⟩], [], UndoOp.empty, []⟩ :=
  C7_union_disjoint_noop
    ⟨[⟨1, [(0, 0)]⟩, ⟨2, [(5, 5)]⟩], [1, 2],
      [⟨1, [(0, 0)]⟩, ⟨2, [(5, 5)]⟩], [], UndoOp.empty, []⟩
    (by decide) (by decide)

/-- C6: on two selected blobs A, B, divide runs exactly the subtract
core with its arguments swapped — `annotations.subtract(blobB, blobA)` —
removing A's footprint from B's mask while A's own geometry stays
untouched (the blob re-added for A is the unmodified copy of A); on
success both resulting blobs remain in the annotation collection, whereas
a successful subtract leaves no blob with B's id in the collection. -/
theorem C6_divide_swapped_subtract (s : TLState) (a b : Blob)
    (hsel : s.selected_blobs = [a, b]) (hids : a.id ≠ b.id)
    (hov : maskOverlap b.mask a.mask = true) :
    (annSubtract b a).1 = true
    ∧ (annSubtract b a).2
        = { b with mask := largestComp (maskDiff b.mask a.mask) }
    ∧ a ∈ (divideOp s).seg_blobs
    ∧ (annSubtract b a).2 ∈ (divideOp s).seg_blobs
    ∧ (maskOverlap a.mask b.mask = true →
        ∀ x ∈ (subtractOp s).seg_blobs, x.id ≠ b.id) := by
  have h1 : annSubtract b a
      = (true, { b with mask := largestComp (maskDiff b.mask a.mask) }) := by
    simp [annSubtract, hov]
  have hseg : (divideOp s).seg_blobs
      = annRemoveBlob (annRemoveBlob s.seg_blobs a) b ++ [a]
        ++ [(annSubtract b a).2] := by
    unfold divideOp
    rw [hsel]
    simp [Blob.copy, h1, saveUndo_seg_blobs, addBlob, removeBlob, annAddBlob]
  refine ⟨by rw [h1], by rw [h1], ?_, ?_, ?_⟩
  · rw [hseg]
    simp
  · rw [hseg]
    simp
  · intro hov' x hx
    have h2 : annSubtract a b
        = (true, { a with mask := largestComp (maskDiff a.mask b.mask) }) := by
      simp [annSubtract, hov']
    have hseg' : (subtractOp s).seg_blobs
        = annRemoveBlob (annRemoveBlob s.seg_blobs a) b
          ++ [(annSubtract a b).2] := by
      unfold subtractOp
      rw [hsel]
      simp [Blob.copy, h2, saveUndo_seg_blobs, addBlob, removeBlob, annAddBlob]
    rw [hseg'] at hx
    rcases List.mem_append.mp hx with h | h
    · have := List.of_mem_filter h
      simpa using this
    · have hxa : x = (annSubtract a b).2 := by simpa using h
      rw [hxa, h2]
      exact hids

/-- Two overlapping one-row blobs used to exercise divide and subtract. -/
def divDemoA : Blob := ⟨1, [(0, 1)]⟩

/-- See `divDemoA`. -/
def divDemoB : Blob := ⟨2, [(0, 1), (0, 2)]⟩

/-- See `divDemoA`. -/
def divDemoState : TLState :=
  ⟨[divDemoA, divDemoB], [1, 2], [divDemoA, divDemoB], [], UndoOp.empty, []⟩

theorem C6_divide_swapped_subtract_witness :
    (annSubtract divDemoB divDemoA).1 = true
    ∧ divDemoA ∈ (divideOp divDemoState).seg_blobs
    ∧ (annSubtract divDemoB divDemoA).2 ∈ (divideOp divDemoState).seg_blobs
    ∧ divDemoB ∉ (subtractOp divDemoState).seg_blobs := by
  have h := C6_divide_swapped_subtract divDemoState divDemoA divDemoB rfl
    (by decide) (by decide)
  refine ⟨h.1, h.2.2.1, h.2.2.2.1, ?_⟩
  intro hmem
  exact (h.2.2.2.2 (by decide) divDemoB hmem) rfl

theorem clampWorkingArea_bounds (wa : BBox) (imgW imgH : Int) :
    0 ≤ (clampWorkingArea wa imgW imgH).top
    ∧ 0 ≤ (clampWorkingArea wa imgW imgH).left
    ∧ (clampWorkingArea wa imgW imgH).top
        + (clampWorkingArea wa imgW imgH).height ≤ imgH
    ∧ (clampWorkingArea wa imgW imgH).left
        + (clampWorkingArea wa imgW imgH).width ≤ imgW := by
  obtain ⟨t, l, w, h⟩ := wa
  simp only [clampWorkingArea]
  split_ifs <;> refine ⟨?_, ?_, ?_, ?_⟩ <;> simp_all

/-- C8: for a non-empty set of scribble strokes, `Watershed.apply`
computes its working area as the joint bounding box of the per-stroke
boxes, each padded by half the stroke's brush width (`int(size/2)`), and
the resulting working area lies within the image bounds: top and left at
least 0, bottom not past the image height, right not past the image
width. -/
theorem C8_watershed_working_area (points : List (List (Int × Int)))
    (sizes : List Nat) (imgW imgH : Int) (hne : points ≠ []) :
    workingArea points sizes imgW imgH
      = clampWorkingArea (jointBox ((points.zip sizes).map
          (fun pc => pointsBox pc.1 (Int.ofNat (pc.2 / 2))))) imgW imgH
    ∧ 0 ≤ (workingArea points sizes imgW imgH).top
    ∧ 0 ≤ (workingArea points sizes imgW imgH).left
    ∧ (workingArea points sizes imgW imgH).top
        + (workingArea points sizes imgW imgH).height ≤ imgH
    ∧ (workingArea points sizes imgW imgH).left
        + (workingArea points sizes imgW imgH).width ≤ imgW :=
  ⟨rfl, clampWorkingArea_bounds _ imgW imgH⟩

theorem C8_watershed_working_area_witness :
    workingArea [[((3 : Int), (4 : Int)), (10, 12)]] [4] 8 9
      = ⟨2, 1, 7, 7⟩
    ∧ 0 ≤ (workingArea [[((3 : Int), (4 : Int)), (10, 12)]] [4] 8 9).top
    ∧ (workingArea [[((3 : Int), (4 : Int)), (10, 12)]] [4] 8 9).top
        + (workingArea [[((3 : Int), (4 : Int)), (10, 12)]] [4] 8 9).height ≤ 9
    ∧ (workingArea [[((3 : Int), (4 : Int)), (10, 12)]] [4] 8 9).left
        + (workingArea [[((3 : Int), (4 : Int)), (10, 12)]] [4] 8 9).width ≤ 8 := by
  have h := C8_watershed_working_area [[((3 : Int), (4 : Int)), (10, 12)]] [4] 8 9
    (by decide)
  exact ⟨by decide, h.2.1, h.2.2.2.1, h.2.2.2.2⟩

theorem seenDedup_congr (l : List Nat) (s1 s2 : List Nat)
    (h : ∀ x, x ∈ s1 ↔ x ∈ s2) : seenDedup s1 l = seenDedup s2 l := by
  induction l generalizing s1 s2 with
  | nil => rfl
  | cons c l ih =>
      by_cases hc : c ∈ s1
      · rw [seenDedup, seenDedup, if_pos hc, if_pos ((h c).mp hc)]
        exact ih s1 s2 h
      · rw [seenDedup, seenDedup, if_neg hc, if_neg (fun hx => hc ((h c).mpr hx))]
        refine congrArg (c :: ·) (ih _ _ ?_)
        intro x
        simp [h x]

theorem mem_seenDedup (l : List Nat) (seen : List Nat) (x : Nat) (hx : x ∈ l) :
    x ∈ seen ∨ x ∈ seenDedup seen l := by
  induction l generalizing seen with
  | nil => simp at hx
  | cons c l ih =>
      by_cases hc : c ∈ seen
      · rw [seenDedup, if_pos hc]
        rcases List.mem_cons.mp hx with h | h
        · exact Or.inl (h ▸ hc)
        · exact ih seen h
      · rw [seenDedup, if_neg hc]
        rcases List.mem_cons.mp hx with h | h
        · exact Or.inr (h ▸ List.mem_cons_self c _)
        · rcases ih (c :: seen) h with h' | h'
          · rcases List.mem_cons.mp h' with h'' | h''
            · exact Or.inr (h'' ▸ List.mem_cons_self c _)
            · exact Or.inl h''
          · exact Or.inr (List.mem_cons_of_mem c h')

theorem buildColorCodes_aux (colors : List RGB) (A : List (Nat × Nat)) :
    (colors.foldl colorStep (A, A.length + 1)).1
    = A ++ ((seenDedup (A.map Prod.fst) (colors.map colorCode)).zip
        (List.range' (A.length + 1)
          (seenDedup (A.map Prod.fst) (colors.map colorCode)).length)) := by
  induction colors generalizing A with
  | nil => simp [seenDedup]
  | cons c cs ih =>
      rw [List.foldl_cons, List.map_cons]
      by_cases hmem : colorCode c ∈ A.map Prod.fst
      · have hfind : ((A.find? (fun p => p.1 = colorCode c)).isSome : Prop) := by
          rw [List.find?_isSome]
          rcases List.mem_map.mp hmem with ⟨p, hp, hpc⟩
          exact ⟨p, hp, by simp [hpc]⟩
        have hstep : colorStep (A, A.length + 1) c = (A, A.length + 1) := by
          simp [colorStep, hfind]
        rw [hstep, ih A, seenDedup, if_pos hmem]
      · have hfind : ¬ ((A.find? (fun p => p.1 = colorCode c)).isSome : Prop) := by
          rw [List.find?_isSome]
          rintro ⟨p, hp, hpc⟩
          exact hmem (List.mem_map.mpr ⟨p, hp, by simpa using hpc⟩)
        have hstep : colorStep (A, A.length + 1) c
            = (A ++ [(colorCode c, A.length + 1)],
               (A ++ [(colorCode c, A.length + 1)]).length + 1) := by
          simp [colorStep, hfind]
        rw [hstep, ih (A ++ [(colorCode c, A.length + 1)])]
        rw [seenDedup, if_neg hmem]
        have hsd : seenDedup ((A ++ [(colorCode c, A.length + 1)]).map Prod.fst)
              (cs.map colorCode)
            = seenDedup (colorCode c :: A.map Prod.fst) (cs.map colorCode) := by
          refine seenDedup_congr _ _ _ ?_
          intro x
          simp [or_comm]
        rw [hsd]
        rw [List.length_cons, List.range'_succ _ _ 1, List.zip_cons_cons]
        simp [List.append_assoc]

theorem buildColorCodes_eq_zip (colors : List RGB) :
    buildColorCodes colors
      = (seenDedup [] (colors.map colorCode)).zip
          (List.range' 1 (seenDedup [] (colors.map colorCode)).length) := by
  have h := buildColorCodes_aux colors []
  simpa [buildColorCodes] using h

theorem find?_zip_range' (D : List Nat) (base k : Nat) (hk : k ∈ D) :
    ((D.zip (List.range' base D.length)).find? (fun p => p.1 = k))
      = some (k, base + D.indexOf k) := by
  induction D generalizing base with
  | nil => simp at hk
  | cons d D ih =>
      rw [List.length_cons, List.range'_succ _ _ 1, List.zip_cons_cons]
      by_cases hdk : d = k
      · subst hdk
        rw [List.find?_cons_of_pos _ (by simp)]
        simp [List.indexOf_cons_self]
      · rw [List.find?_cons_of_neg _ (by simp [hdk])]
        have hk' : k ∈ D := by
          rcases List.mem_cons.mp hk with h | h
          · exact absurd h.symm hdk
          · exact h
        rw [ih (base + 1) hk']
        rw [List.indexOf_cons_ne D hdk]
        simp [Nat.succ_eq_add_one]
        omega

theorem labelOf_eq_indexOf (colors : List RGB) (c : RGB)
    (hc : colorCode c ∈ seenDedup [] (colors.map colorCode)) :
    labelOf colors c
      = 1 + (seenDedup [] (colors.map colorCode)).indexOf (colorCode c) := by
  unfold labelOf
  rw [buildColorCodes_eq_zip, find?_zip_range' _ 1 _ hc]

theorem colorCode_mem_seenDedup (colors : List RGB) (c : RGB) (hc : c ∈ colors) :
    colorCode c ∈ seenDedup [] (colors.map colorCode) := by
  rcases mem_seenDedup (colors.map colorCode) [] (colorCode c)
    (List.mem_map.mpr ⟨c, hc, rfl⟩) with h | h
  · simp at h
  · exact h

theorem colorCode_inj (c1 c2 : RGB)
    (h1 : c1.1 < 256 ∧ c1.2.1 < 256 ∧ c1.2.2 < 256)
    (h2 : c2.1 < 256 ∧ c2.2.1 < 256 ∧ c2.2.2 < 256)
    (h : colorCode c1 = colorCode c2) : c1 = c2 := by
  obtain ⟨r1, g1, b1⟩ := c1
  obtain ⟨r2, g2, b2⟩ := c2
  simp only [colorCode] at h
  simp only [Prod.mk.injEq] at h1 h2 ⊢
  omega

/-- C9: `Watershed.apply` assigns integer marker labels to scribble
colors so that two strokes get the same label iff they have the same RGB
color (the code `b + 256*g + 65536*r` is injective on 8-bit components),
and labels are allocated in stable first-seen order starting from 1: the
dictionary's keys are the distinct color codes in first-seen order, its
values are 1, 2, 3, …, and a stroke's label is one plus the first-seen
rank of its color. -/
theorem C9_watershed_marker_labels (colors : List RGB)
    (hb : ∀ c ∈ colors, c.1 < 256 ∧ c.2.1 < 256 ∧ c.2.2 < 256) :
    (∀ c1 ∈ colors, ∀ c2 ∈ colors,
      (labelOf colors c1 = labelOf colors c2 ↔ c1 = c2))
    ∧ (buildColorCodes colors).map Prod.fst
        = seenDedup [] (colors.map colorCode)
    ∧ (buildColorCodes colors).map Prod.snd
        = List.range' 1 (seenDedup [] (colors.map colorCode)).length
    ∧ (∀ c ∈ colors, labelOf colors c
        = 1 + (seenDedup [] (colors.map colorCode)).indexOf (colorCode c)) := by
  refine ⟨?_, ?_, ?_, ?_⟩
  · intro c1 h1 c2 h2
    constructor
    · intro hl
      have m1 := colorCode_mem_seenDedup colors c1 h1
      have m2 := colorCode_mem_seenDedup colors c2 h2
      rw [labelOf_eq_indexOf colors c1 m1, labelOf_eq_indexOf colors c2 m2] at hl
      have hidx : (seenDedup [] (colors.map colorCode)).indexOf (colorCode c1)
          = (seenDedup [] (colors.map colorCode)).indexOf (colorCode c2) := by omega
      have hcode := (List.indexOf_inj m1 m2).mp hidx
      exact colorCode_inj c1 c2 (hb c1 h1) (hb c2 h2) hcode
    · intro h
      rw [h]
  · rw [buildColorCodes_eq_zip]
    exact List.map_fst_zip _ _ (by simp)
  · rw [buildColorCodes_eq_zip]
    exact List.map_snd_zip _ _ (by simp)
  · intro c hc
    exact labelOf_eq_indexOf colors c (colorCode_mem_seenDedup colors c hc)

/-- Three strokes in two colors (red, green, red again). -/
def demoColors : List RGB := [(255, 0, 0), (0, 255, 0), (255, 0, 0)]

theorem C9_watershed_marker_labels_witness :
    (labelOf demoColors (255, 0, 0) = labelOf demoColors (0, 255, 0)
      ↔ ((255, 0, 0) : RGB) = (0, 255, 0))
    ∧ (buildColorCodes demoColors).map Prod.fst
        = seenDedup [] (demoColors.map colorCode)
    ∧ (buildColorCodes demoColors).map Prod.snd
        = List.range' 1 (seenDedup [] (demoColors.map colorCode)).length
    ∧ labelOf demoColors (255, 0, 0) = 1
    ∧ labelOf demoColors (0, 255, 0) = 2 := by
  have h := C9_watershed_marker_labels demoColors (by decide)
  exact ⟨h.1 _ (by decide) _ (by decide), h.2.1, h.2.2.1, by decide, by decide⟩

end TagLabSpec
